import Mathlib

/-!
Verification development for the seebsfrac fractal engine.

The definitions below are a shallow embedding of the Go sources
(canonical variant: the evolved engine with flip flags, fixed-color
flags, point add/delete and inverse-base computation).  Conventions:

* `float64` positions are modelled as real numbers; the similarity
  transform built by `NewAffineBetween` uses `Real.sqrt`,
  `Complex.arg` (for `math.Atan2`), `Real.sin` and `Real.cos`.
* Go `int16` color arithmetic is modelled on `Int` with an explicit
  two's-complement wrap `wrap16`; Go's truncated `%` and `/` are
  `Int.tmod` and `Int.tdiv`.
* Go `int` flag words are modelled as `Nat` (all flag constants are
  small non-negative bit masks and the program only ANDs/ORs/XORs
  them).
* Slices into the single backing allocation `f.data` are modelled by
  keeping `data : List Point` as the store and `lines : List (Nat × Nat)`
  as the per-depth index windows computed by `Alloc`.
* A Go runtime panic (out-of-range slice write) is modelled by an
  `Option` result (`none` = panic).
-/

/-- 2D vector, as in pixel.Vec (float64 coordinates modelled by reals). -/
structure Vec where
  x : ℝ
  y : ℝ

/-- A point of the fractal: position, flag bitset and 10-bit color index.
Go: `type Point struct { pixel.Vec; Flags int; Color int16 }`. -/
structure Point where
  vec : Vec
  flags : Nat
  color : Int

/-- Axis-aligned rectangle, as in pixel.Rect. -/
structure Rect where
  Min : Vec
  Max : Vec

/-- pixel.Matrix: six float64 entries `[x1, y1, x2, y2, x0, y0]` of an
affine transform (see the row comment in the Go source). -/
structure Affine where
  m0 : ℝ
  m1 : ℝ
  m2 : ℝ
  m3 : ℝ
  m4 : ℝ
  m5 : ℝ

/-- pixel.Matrix.Project (the matrix type is named Affine here, as in the
earlier variant of the source, to avoid clashing with mathlib): apply the affine transform to a vector:
`(m0*x + m2*y + m4, m1*x + m3*y + m5)`. -/
def Affine.project (m : Affine) (u : Vec) : Vec :=
  ⟨m.m0 * u.x + m.m2 * u.y + m.m4, m.m1 * u.x + m.m3 * u.y + m.m5⟩

/-- pixel.Rect.Union: smallest rectangle containing both. -/
noncomputable def Rect.union (r s : Rect) : Rect :=
  ⟨⟨min r.Min.x s.Min.x, min r.Min.y s.Min.y⟩,
   ⟨max r.Max.x s.Max.x, max r.Max.y s.Max.y⟩⟩

/-- Flag constants (Go: `Hide = 1 << iota`, then Prune, FlipX, FlipY, FixedC). -/
def Hide : Nat := 1

/-- Flag constant: Prune. -/
def Prune : Nat := 2

/-- Flag constant: FlipX. -/
def FlipX : Nat := 4

/-- Flag constant: FlipY. -/
def FlipY : Nat := 8

/-- Flag constant: FixedC (color is absolute, not inherited). -/
def FixedC : Nat := 16

/-- Two's-complement wrap of an integer into the `int16` range. -/
def wrap16 (x : Int) : Int :=
  (x + 32768) % 65536 - 32768

/-- Go source: `modPlus(x, y int16) int16` yields the positive remainder of
x/y.  Go's `%` is truncated remainder, i.e. `Int.tmod`. -/
def modPlus (x y : Int) : Int :=
  let x := Int.tmod x y
  if x < 0 then x + y else x

/-- Go source: `satMod(x, y int16)` yields `y-1` for `x >= y`, otherwise the
"positive remainder" of x/y (wrapping negatives by adding `y`). -/
def satMod (x y : Int) : Int :=
  if x ≥ y then y - 1
  else if x < 0 then Int.tmod x y + y
  else x

/-- Go source: `rgb(h, s, v int16) (r, g, b int16)` — integer HSV→RGB.
Go's `/` and `%` on int16 are `Int.tdiv`/`Int.tmod`; the sector parity
test `(q & 1) != 0` is `q.tmod 2 ≠ 0` (`q` is always non-negative here,
where `& 1` coincides with the remainder mod 2). -/
def rgb (h s v : Int) : Int × Int × Int :=
  let h := modPlus h 360
  let q := Int.tdiv h 60
  let hp := Int.tmod h 60
  let s := satMod s 256
  let v := satMod v 256
  let c := Int.tdiv (s * v) 255
  let m := v - c
  let x := Int.tdiv (c * hp) 60
  let x := if q.tmod 2 ≠ 0 then c - x else x
  let (r, g, b) :=
    if q = 0 then (c, x, 0)
    else if q = 1 then (x, c, 0)
    else if q = 2 then ((0 : Int), c, x)
    else if q = 3 then ((0 : Int), x, c)
    else if q = 4 then (x, (0 : Int), c)
    else if q = 5 then (c, (0 : Int), x)
    else ((0 : Int), (0 : Int), (0 : Int))
  (r + m, g + m, b + m)

/-- Go source: `NewAffineBetween(p0, p1 Point) pixel.Matrix` — the
similarity transform mapping the unit segment (0,0)-(1,0) onto the
segment p0-p1.  `math.Atan2(dy, dx)` is the argument of the complex
number `dx + i dy`; `math.Sincos` returns its sine and cosine;
`math.Sqrt(dx*dx+dy*dy)` is the scale. -/
noncomputable def NewAffineBetween (p0 p1 : Point) : Affine :=
  let dx := p1.vec.x - p0.vec.x
  let dy := p1.vec.y - p0.vec.y
  let scale := Real.sqrt (dx * dx + dy * dy)
  let theta := Complex.arg ⟨dx, dy⟩
  let sint := Real.sin theta
  let cost := Real.cos theta
  ⟨scale * cost, scale * sint, -(scale * sint), scale * cost, p0.vec.x, p0.vec.y⟩

/-- The Fractal engine state (Go: `Fractal` plus its embedded `RenderData`).
`dataSize` and the UI color lookup table are unused by the engine's
algorithms and omitted; `lines` holds the per-depth `[start, stop)`
windows into the backing allocation `data`. -/
structure Fractal where
  maxDepth : Int
  base : List Point
  maxOOM : Nat
  total : Int
  selectedPoint : Int
  inverse : List Point
  depth : Int
  data : List Point
  lines : List (Nat × Nat)
  bounds : Rect

/-- The slice `f.data[a:b]` for the depth window `lines[i]`; the empty list
when the window index is out of range (Go would panic there; unreachable
for states produced by `Alloc`). -/
def Fractal.window (f : Fractal) (i : Nat) : List Point :=
  match f.lines.get? i with
  | some w => (f.data.drop w.1).take (w.2 - w.1)
  | none => []

/-- Overwrite the depth window `lines[i]` of `f.data` with `pts`.
Go writes through the slice `f.lines[i]`; states reached through `Alloc`
always pass a `pts` of exactly the window's length.  When the window
index is out of range Go would panic; that path is unreachable from
`Alloc`-consistent states and is modelled as a no-op. -/
def Fractal.writeWindow (f : Fractal) (i : Nat) (pts : List Point) : Fractal :=
  match f.lines.get? i with
  | some w => { f with data := f.data.take w.1 ++ pts ++ f.data.drop (w.1 + pts.length) }
  | none => f

/-- Go source: `Points(depth int) []Point` — nil for negative depth or depth
beyond the last rendered one, the synthetic single point (1,0) for depth
0, otherwise the buffer slice.  `none` models the nil slice. -/
def Fractal.Points (f : Fractal) (depth : Int) : Option (List Point) :=
  if depth > f.depth ∨ depth < 0 then none
  else if depth = 0 then some [⟨⟨1, 0⟩, 0, 0⟩]
  else some (f.window depth.toNat)

/-- Loop body of `BoundsAt`: grow the rectangle point by point, with the
`if/else if` structure of the source. -/
noncomputable def boundsLoop : Rect → List Point → Rect
  | r, [] => r
  | r, p :: ps =>
    let r1 :=
      if p.vec.x < r.Min.x then { r with Min := ⟨p.vec.x, r.Min.y⟩ }
      else if p.vec.x > r.Max.x then { r with Max := ⟨p.vec.x, r.Max.y⟩ }
      else r
    let r2 :=
      if p.vec.y < r1.Min.y then { r1 with Min := ⟨r1.Min.x, p.vec.y⟩ }
      else if p.vec.y > r1.Max.y then { r1 with Max := ⟨r1.Max.x, p.vec.y⟩ }
      else r1
    boundsLoop r2 ps

/-- Go source: `BoundsAt(depth int)` — minimal rectangle containing the
depth's points, seeded with the span (0,0)-(1,0). -/
noncomputable def Fractal.BoundsAt (f : Fractal) (depth : Nat) : Rect :=
  boundsLoop ⟨⟨0, 0⟩, ⟨1, 0⟩⟩ (f.window depth)

/-- One segment expansion (Go source: `Partial(p0, p1 Point, dest []Point)`):
maps the Base (or the Inverse base when the segment endpoint carries
FlipX) through the affine transform between p0 and p1, accumulating
color unless the base point's FixedC flag is set, and XORing the
segment endpoint's flip flags forward.  Returns the points written
to `dest`. -/
noncomputable def Fractal.PartialRender (f : Fractal) (p0 p1 : Point) : List Point :=
  let flipY := p1.flags &&& FlipY ≠ 0
  let flipX := p1.flags &&& FlipX ≠ 0
  let a := NewAffineBetween p0 p1
  let base := if flipX then f.inverse else f.base
  base.map (fun q =>
    let p := if flipY then { q with vec := ⟨q.vec.x, -q.vec.y⟩ } else q
    let d := { p with vec := a.project p.vec }
    let d := if p.flags &&& FixedC = 0 then { d with color := wrap16 (d.color + p1.color) } else d
    let d := { d with color := modPlus d.color 1024 }
    { d with flags := d.flags ^^^ (p1.flags &&& (FlipX ||| FlipY)) })

/-- The render loop over consecutive source points, starting from the
implicit origin point `Point{}`; concatenates the per-segment `Partial`
outputs exactly as the Go loop lays them out at offsets 0, l, 2l, ... -/
noncomputable def renderLoop (f : Fractal) : Point → List Point → List Point
  | _, [] => []
  | prev, p :: ps => f.PartialRender prev p ++ renderLoop f p ps

/-- Go source: `Render(depth int) bool` — computes the points for a depth
if the previous line is filled in; returns the updated state and the
success flag. -/
noncomputable def Fractal.Render (f : Fractal) (depth : Int) : Fractal × Bool :=
  if depth = 0 then (f, true)
  else if depth = 1 then
    let dst := f.base.map (fun p =>
      if p.flags &&& FixedC ≠ 0 then { p with color := modPlus p.color 1024 }
      else { p with color := 0 })
    let f := f.writeWindow 1 dst
    let f := if f.depth < 1 then { f with depth := 1 } else f
    (f, true)
  else
    let src := if depth > 0 ∧ depth < f.maxDepth then f.Points (depth - 1) else none
    match src with
    | none => (f, false)
    | some srcL =>
      let dst := renderLoop f ⟨⟨0, 0⟩, 0, 0⟩ srcL
      let f := f.writeWindow depth.toNat dst
      let nb := f.BoundsAt depth.toNat
      let f := { f with bounds := f.bounds.union nb }
      let f := if f.depth < depth then { f with depth := depth } else f
      (f, true)

/-- The inverse-base loop of `Changed`, built forward: point i takes
Base[i]'s non-position fields and the predecessor's position with X
flipped around 0-1 (the Go loop then stores it at the mirrored index,
i.e. the result list is reversed). -/
def inverseBase : Vec → List Point → List Point
  | _, [] => []
  | prev, p :: ps => { p with vec := ⟨1 - prev.x, prev.y⟩ } :: inverseBase p.vec ps

/-- Go source: `Changed()` — recompute the inverse base, reset Depth and
Bounds to the base span, and eagerly render depths 0 through 5. -/
noncomputable def Fractal.Changed (f : Fractal) : Fractal :=
  let f := { f with inverse := (inverseBase ⟨0, 0⟩ f.base).reverse,
                    depth := 0,
                    bounds := ⟨⟨0, 0⟩, ⟨1, 0⟩⟩ }
  let f := (f.Render 0).1
  let f := (f.Render 1).1
  let f := (f.Render 2).1
  let f := (f.Render 3).1
  let f := (f.Render 4).1
  let f := (f.Render 5).1
  f

/-- The `Alloc` loop (Go: `for i := 0; i < f.MaxDepth; i++ { ... }` with
`f.MaxDepth` mutated inside).  `fuel` is the structural bound: the loop
starts at `i = 0` with `maxd = 20` and `i` only grows while `maxd` only
shrinks, so 20 steps always suffice.  Returns (MaxDepth, Total, totals). -/
def allocLoop (L cap : Int) : Nat → Int → Int → Int → Int → List Int → Int × Int × List Int
  | 0, _, total, _, maxd, totals => (maxd, total, totals)
  | fuel + 1, i, total, size, maxd, totals =>
    if i < maxd then
      let total := total + size
      let totals := totals ++ [total]
      let size := size * L
      let maxd := if total + size > cap then i + 1 else maxd
      allocLoop L cap fuel (i + 1) total size maxd totals
    else (maxd, total, totals)

/-- Turn the cumulative `totals` into `[start, stop)` windows
(Go: `f.lines[i] = f.data[prev:totals[i]]`). -/
def windowsFrom : Int → List Int → List (Nat × Nat)
  | _, [] => []
  | prev, t :: ts => (prev.toNat, t.toNat) :: windowsFrom t ts

/-- Go source: `Alloc()` — recompute MaxDepth (hard-capped at 20) and Total
under the `1 << MaxOOM` budget, reslice the per-depth windows, and call
`Changed`.  `1 << f.MaxOOM` is `2 ^ f.maxOOM` (the Go program never
shifts past the word size). -/
noncomputable def Fractal.Alloc (f : Fractal) : Fractal :=
  let r := allocLoop (f.base.length : Int) ((2 : Int) ^ f.maxOOM) 20 0 0 1 20 []
  let f := { f with maxDepth := r.1, total := r.2.1, lines := windowsFrom 0 r.2.2 }
  f.Changed

/-- Go source: `SelectPoint(index int)` — record the selected point index
(-1 when out of range); the UI field updates have no engine state. -/
def Fractal.SelectPoint (f : Fractal) (index : Int) : Fractal :=
  if 0 ≤ index ∧ index < (f.base.length : Int) then { f with selectedPoint := index }
  else { f with selectedPoint := -1 }

/-- Per-point update of `ColorChange`: `Color += int16(amt); Color %= 1024`
in Go int16 arithmetic. -/
def updColor (amt : Int) (p : Point) : Point :=
  { p with color := Int.tmod (wrap16 (p.color + wrap16 amt)) 1024 }

/-- Go source: `ColorChange(amt int)` — add an amount to the selected
point's color, truncated-mod 1024, then reselect and re-render. -/
noncomputable def Fractal.ColorChange (f : Fractal) (amt : Int) : Fractal :=
  if f.selectedPoint < 0 ∨ f.selectedPoint ≥ (f.base.length : Int) then f
  else
    let base :=
      match f.base.get? f.selectedPoint.toNat with
      | some p => f.base.set f.selectedPoint.toNat (updColor amt p)
      | none => f.base
    let f := { f with base := base }
    let f := f.SelectPoint f.selectedPoint
    f.Changed

/-- The copy loop of `AddPoint`: walk the base with the running index `i`
and previous point `prev`; in front of the selected point insert a copy
of it positioned at the midpoint of `prev` and the point. -/
noncomputable def addLoop (sel : Int) : Int → Point → List Point → List Point
  | _, _, [] => []
  | i, prev, p :: ps =>
    if i = sel then
      { p with vec := ⟨(p.vec.x + prev.vec.x) / 2, (p.vec.y + prev.vec.y) / 2⟩ }
        :: p :: addLoop sel (i + 1) p ps
    else p :: addLoop sel (i + 1) p ps

/-- Go source: `AddPoint()` — divide the segment ending in the selected
point in half; no-op when the base already has 6 points or the selected
index is out of range. -/
noncomputable def Fractal.AddPoint (f : Fractal) : Fractal :=
  if f.base.length ≥ 6 ∨ f.selectedPoint < 0 ∨ f.selectedPoint ≥ (f.base.length : Int) then f
  else
    let newbase := addLoop f.selectedPoint 0 ⟨⟨0, 0⟩, 0, 0⟩ f.base
    Fractal.Alloc { f with base := newbase }

/-- The copy loop of `DelPoint`: Go copies every non-selected point into a
freshly made slice of length `len(Base)-1` through a running write index
`j`; the write `newbase[j] = p` panics when `j` reaches that length,
which `none` models.  `cap` is `len(Base)-1`. -/
def delLoop (sel cap : Int) : Int → Int → List Point → Option (List Point)
  | _, _, [] => some []
  | i, j, p :: ps =>
    if i ≠ sel then
      if j < cap then (delLoop sel cap (i + 1) (j + 1) ps).map (fun l => p :: l)
      else none
    else delLoop sel cap (i + 1) j ps

/-- Go source: `DelPoint()` — delete the selected point; no-op when the
base has fewer than 3 points or `selectedPoint < 0` or
`selectedPoint > len(Base)` (note: `>`, not `>=`, so the out-of-range
index `selectedPoint == len(Base)` slips past the guard and the copy
loop overruns `newbase`, a runtime panic modelled by `none`). -/
noncomputable def Fractal.DelPoint (f : Fractal) : Option Fractal :=
  if f.base.length < 3 ∨ f.selectedPoint < 0 ∨ f.selectedPoint > (f.base.length : Int) then
    some f
  else
    match delLoop f.selectedPoint ((f.base.length : Int) - 1) 0 0 f.base with
    | none => none
    | some nb => some (Fractal.Alloc { f with base := nb })

/-- An edit operation from claim C8's alphabet: a point addition or a
point deletion. -/
inductive EditOp where
  | add : EditOp
  | del : EditOp

/-- Apply one edit operation; `none` models a runtime panic. -/
noncomputable def applyOp (f : Fractal) : EditOp → Option Fractal
  | EditOp.add => some f.AddPoint
  | EditOp.del => f.DelPoint

/-- Run a sequence of edit operations; `none` models a runtime panic
somewhere along the way. -/
noncomputable def runOps : List EditOp → Fractal → Option Fractal
  | [], f => some f
  | op :: ops, f =>
    match applyOp f op with
    | none => none
    | some g => runOps ops g

/-- The color rule exactly as claim C5 words it: the endpoint's color is
added mod 1024 unless "the segment's flag" — the flag of the segment
endpoint `p1` — marks the color as fixed, in which case the color is
absolute.  (The code instead consults the base point's own flag.) -/
def claimedPartialColor (p p1 : Point) : Int :=
  if p1.flags &&& FixedC ≠ 0 then p.color else (p.color + p1.color) % 1024

/-- The origin point `Point{}`. -/
def p00 : Point := ⟨⟨0, 0⟩, 0, 0⟩

/-- A three-point base used by several concrete checks. -/
def testBase3 : List Point := [⟨⟨0, 0⟩, 0, 0⟩, ⟨⟨1, 0⟩, 0, 0⟩, ⟨⟨2, 0⟩, 0, 0⟩]

/-- Concrete state for C1's counterexample: two base points, a large
budget (MaxOOM 22). -/
def cf1x : Fractal :=
  { maxDepth := 0, base := [⟨⟨0, 0⟩, 0, 0⟩, ⟨⟨1, 0⟩, 0, 0⟩], maxOOM := 22, total := 0,
    selectedPoint := -1, inverse := [], depth := 0, data := [], lines := [],
    bounds := ⟨⟨0, 0⟩, ⟨1, 0⟩⟩ }

/-- Concrete state for C1's witness: two base points, MaxOOM 4. -/
def cf1w : Fractal :=
  { maxDepth := 0, base := [⟨⟨0, 0⟩, 0, 0⟩, ⟨⟨1, 0⟩, 0, 0⟩], maxOOM := 4, total := 0,
    selectedPoint := -1, inverse := [], depth := 0, data := [], lines := [],
    bounds := ⟨⟨0, 0⟩, ⟨1, 0⟩⟩ }

/-- Concrete allocated state (depth 0 only rendered) for C2/C3. -/
def cf2 : Fractal :=
  { maxDepth := 4, base := testBase3, maxOOM := 4, total := 15, selectedPoint := -1,
    inverse := [], depth := 0, data := List.replicate 16 p00,
    lines := [(0, 1), (1, 3), (3, 7), (7, 15)], bounds := ⟨⟨0, 0⟩, ⟨1, 0⟩⟩ }

/-- Concrete state for C5: a one-point base with color 5 and no flags. -/
def cf5 : Fractal :=
  { maxDepth := 0, base := [⟨⟨0, 0⟩, 0, 5⟩], maxOOM := 2, total := 0,
    selectedPoint := -1, inverse := [⟨⟨1, 0⟩, 0, 5⟩], depth := 0, data := [], lines := [],
    bounds := ⟨⟨0, 0⟩, ⟨1, 0⟩⟩ }

/-- Concrete segment endpoint for C5: FixedC flag set, color 7. -/
def cp1 : Point := ⟨⟨1, 0⟩, FixedC, 7⟩

/-- Concrete state for C6's counterexample: selected point 0 has color 5. -/
def cf6 : Fractal :=
  { maxDepth := 0, base := [⟨⟨0, 0⟩, 0, 5⟩, ⟨⟨1, 0⟩, 0, 7⟩], maxOOM := 2, total := 0,
    selectedPoint := 0, inverse := [], depth := 0, data := [], lines := [],
    bounds := ⟨⟨0, 0⟩, ⟨1, 0⟩⟩ }

/-- Concrete state for C6's witness: selected point 0 has color 1023. -/
def cf6w : Fractal :=
  { maxDepth := 0, base := [⟨⟨0, 0⟩, 0, 1023⟩, ⟨⟨1, 0⟩, 0, 7⟩], maxOOM := 2, total := 0,
    selectedPoint := 0, inverse := [], depth := 0, data := [], lines := [],
    bounds := ⟨⟨0, 0⟩, ⟨1, 0⟩⟩ }

/-- Concrete state for C8's witness: a two-point base. -/
def cf8 : Fractal :=
  { maxDepth := 0, base := [⟨⟨0, 0⟩, 0, 0⟩, ⟨⟨1, 0⟩, 0, 0⟩], maxOOM := 2, total := 0,
    selectedPoint := 0, inverse := [], depth := 0, data := [], lines := [],
    bounds := ⟨⟨0, 0⟩, ⟨1, 0⟩⟩ }

/-- Concrete state for C9: three base points and the stale selection
index 3 == len(Base), reachable by selecting the last point of a
four-point base and deleting it. -/
def cf9 : Fractal :=
  { maxDepth := 0, base := testBase3, maxOOM := 2, total := 0, selectedPoint := 3,
    inverse := [], depth := 0, data := [], lines := [], bounds := ⟨⟨0, 0⟩, ⟨1, 0⟩⟩ }

theorem writeWindow_base (f : Fractal) (i : Nat) (pts : List Point) :
    (f.writeWindow i pts).base = f.base := by
  unfold Fractal.writeWindow; split <;> rfl

theorem writeWindow_maxDepth (f : Fractal) (i : Nat) (pts : List Point) :
    (f.writeWindow i pts).maxDepth = f.maxDepth := by
  unfold Fractal.writeWindow; split <;> rfl

theorem writeWindow_selectedPoint (f : Fractal) (i : Nat) (pts : List Point) :
    (f.writeWindow i pts).selectedPoint = f.selectedPoint := by
  unfold Fractal.writeWindow; split <;> rfl

theorem render_base (f : Fractal) (d : Int) : ((f.Render d).1).base = f.base := by
  unfold Fractal.Render
  split
  · rfl
  split
  · dsimp only
    split <;> simp [writeWindow_base]
  dsimp only
  split
  · rfl
  dsimp only
  split <;> simp [writeWindow_base]

theorem render_maxDepth (f : Fractal) (d : Int) : ((f.Render d).1).maxDepth = f.maxDepth := by
  unfold Fractal.Render
  split
  · rfl
  split
  · dsimp only
    split <;> simp [writeWindow_maxDepth]
  dsimp only
  split
  · rfl
  dsimp only
  split <;> simp [writeWindow_maxDepth]

theorem render_selectedPoint (f : Fractal) (d : Int) :
    ((f.Render d).1).selectedPoint = f.selectedPoint := by
  unfold Fractal.Render
  split
  · rfl
  split
  · dsimp only
    split <;> simp [writeWindow_selectedPoint]
  dsimp only
  split
  · rfl
  dsimp only
  split <;> simp [writeWindow_selectedPoint]

theorem changed_base (f : Fractal) : (f.Changed).base = f.base := by
  unfold Fractal.Changed
  simp [render_base]

theorem changed_maxDepth (f : Fractal) : (f.Changed).maxDepth = f.maxDepth := by
  unfold Fractal.Changed
  simp [render_maxDepth]

theorem changed_selectedPoint (f : Fractal) : (f.Changed).selectedPoint = f.selectedPoint := by
  unfold Fractal.Changed
  simp [render_selectedPoint]

theorem alloc_base (f : Fractal) : (f.Alloc).base = f.base := by
  unfold Fractal.Alloc
  simp [changed_base]

theorem alloc_maxDepth (f : Fractal) :
    (f.Alloc).maxDepth = (allocLoop (f.base.length : Int) ((2 : Int) ^ f.maxOOM) 20 0 0 1 20 []).1 := by
  unfold Fractal.Alloc
  simp [changed_maxDepth]

/-- C2: Render(0) always returns true, and for d > 0, when the predecessor
depth's point buffer is not available (Points(d-1) is nil, i.e. depth
d-1 has not been rendered since the last Changed), Render(d) returns
false and leaves the state untouched. -/
theorem c2_render_fails_without_predecessor :
    (∀ f : Fractal, f.Render 0 = (f, true)) ∧
    (∀ (f : Fractal) (d : Int), 0 ≤ f.depth → 1 ≤ d → f.Points (d - 1) = none →
      f.Render d = (f, false)) := by
  constructor
  · intro f; rfl
  intro f d hdep hd hnone
  by_cases h1 : d = 1
  · exfalso
    subst h1
    norm_num at hnone
    unfold Fractal.Points at hnone
    rw [if_neg (by omega), if_pos rfl] at hnone
    exact Option.noConfusion hnone
  · unfold Fractal.Render
    rw [if_neg (by omega), if_neg h1]
    dsimp only
    have hsrc : (if d > 0 ∧ d < f.maxDepth then f.Points (d - 1) else none) = none := by
      split
      · exact hnone
      · rfl
    rw [hsrc]

/-- C2 witness: in the concrete allocated state `cf2` only depth 0 is
rendered, so Points(1) is nil and Render(2) fails without touching the
state. -/
theorem c2_render_fails_without_predecessor_witness :
    cf2.Render 2 = (cf2, false) :=
  c2_render_fails_without_predecessor.2 cf2 2 (by decide) (by decide) rfl

/-- C3: Points(0) is exactly one point at (1,0) regardless of Base, and a
negative depth or a depth beyond the currently rendered one yields the
nil sequence.  (`0 ≤ f.depth` is the engine's Depth invariant: Depth is
set to 0 by Changed, to 1 at construction, and only ever raised by
Render.) -/
theorem c3_points_depth_zero_and_out_of_range (f : Fractal) (d : Int) (hdep : 0 ≤ f.depth) :
    f.Points 0 = some [⟨⟨1, 0⟩, 0, 0⟩] ∧ (d < 0 ∨ d > f.depth → f.Points d = none) := by
  constructor
  · unfold Fractal.Points
    rw [if_neg (by omega), if_pos rfl]
  · intro hout
    unfold Fractal.Points
    rw [if_pos (by omega)]

/-- C3 witness: the concrete state `cf2` (Depth 0) has the synthetic
(1,0) point at depth 0 and a nil result at depth -1. -/
theorem c3_points_depth_zero_and_out_of_range_witness :
    cf2.Points 0 = some [⟨⟨1, 0⟩, 0, 0⟩] ∧ cf2.Points (-1) = none := by
  have h := c3_points_depth_zero_and_out_of_range cf2 (-1) (by decide)
  exact ⟨h.1, h.2 (Or.inl (by decide))⟩

theorem tmod_neg_char (x y : Int) (hx : x < 0) (hy : 0 ≤ y) : x.tmod y = -((-x) % y) := by
  obtain ⟨m, rfl⟩ := Int.eq_negSucc_of_lt_zero hx
  obtain ⟨n, rfl⟩ := Int.eq_ofNat_of_zero_le hy
  rfl

theorem modPlus_bounds (x y : Int) (hy : 0 < y) : 0 ≤ modPlus x y ∧ modPlus x y < y := by
  unfold modPlus
  dsimp only
  by_cases hx : 0 ≤ x
  · rw [Int.tmod_eq_emod hx hy.le]
    have h1 := Int.emod_nonneg x (ne_of_gt hy)
    have h2 := Int.emod_lt_of_pos x hy
    split <;> omega
  · rw [tmod_neg_char x y (by omega) hy.le]
    have h1 := Int.emod_nonneg (-x) (ne_of_gt hy)
    have h2 := Int.emod_lt_of_pos (-x) hy
    split <;> omega

theorem modPlus_of_nonneg (x y : Int) (hx : 0 ≤ x) (hy : 0 < y) : modPlus x y = x % y := by
  unfold modPlus
  dsimp only
  rw [Int.tmod_eq_emod hx hy.le]
  have h1 := Int.emod_nonneg x (ne_of_gt hy)
  rw [if_neg (by omega)]

theorem wrap16_eq_self (x : Int) (h0 : -32768 ≤ x) (h1 : x ≤ 32767) : wrap16 x = x := by
  unfold wrap16
  omega

theorem satMod_bounds (x : Int) (hbad : ¬(x < 0 ∧ x.tmod 256 = 0)) :
    0 ≤ satMod x 256 ∧ satMod x 256 ≤ 255 := by
  unfold satMod
  by_cases h1 : x ≥ 256
  · rw [if_pos h1]; omega
  · rw [if_neg h1]
    by_cases h2 : x < 0
    · rw [if_pos h2]
      have h5 : x.tmod 256 ≠ 0 := fun h => hbad ⟨h2, h⟩
      rw [tmod_neg_char x 256 h2 (by omega)] at h5 ⊢
      have h3 := Int.emod_nonneg (-x) (by omega : (256 : Int) ≠ 0)
      have h4 := Int.emod_lt_of_pos (-x) (by omega : (0 : Int) < 256)
      omega
    · rw [if_neg h2]; omega

theorem satMod_of_small (x : Int) (h0 : 0 ≤ x) (h1 : x < 256) : satMod x 256 = x := by
  unfold satMod
  rw [if_neg (by omega), if_neg (by omega)]

/-- C9 (code bug): the DelPoint guard checks `selectedPoint > len(Base)`
instead of `>=`, so the out-of-range index selectedPoint == len(Base)
slips past it and the copy loop writes len(Base) points into a slice of
length len(Base)-1 — a runtime panic (modelled by `none`), not the
silent no-op the spec promises. -/
theorem c9_delpoint_oob_index_panics :
    cf9.selectedPoint = (cf9.base.length : Int) ∧ cf9.DelPoint = none :=
  ⟨rfl, rfl⟩

/-- C7: Partial XORs the segment endpoint's FlipX/FlipY bits into each
produced point's flags, and XORing the same flip mask in twice cancels,
so flips compose across recursion levels (a flip on a flip restores the
unflipped orientation). -/
theorem c7_flip_flags_compose (f : Fractal) (p0 p1 : Point) (i : Nat) (p : Point)
    (hp : (if p1.flags &&& FlipX ≠ 0 then f.inverse else f.base).get? i = some p) :
    ((f.PartialRender p0 p1).get? i).map Point.flags
        = some (p.flags ^^^ (p1.flags &&& (FlipX ||| FlipY))) ∧
      (p.flags ^^^ (p1.flags &&& (FlipX ||| FlipY))) ^^^ (p1.flags &&& (FlipX ||| FlipY))
        = p.flags := by
  constructor
  · unfold Fractal.PartialRender
    dsimp only
    rw [List.get?_map, hp]
    dsimp only [Option.map_some']
    congr 1
    split <;> split <;> rfl
  · rw [Nat.xor_assoc, Nat.xor_self, Nat.xor_zero]

/-- C7 witness: expanding the one-point base of `cf5` along the FixedC
segment `cp1` leaves its flag word equal to 0 XOR the (empty) flip mask
of `cp1`. -/
theorem c7_flip_flags_compose_witness :
    ((cf5.PartialRender p00 cp1).get? 0).map Point.flags
      = some ((0 : Nat) ^^^ (cp1.flags &&& (FlipX ||| FlipY))) :=
  (c7_flip_flags_compose cf5 p00 cp1 0 ⟨⟨0, 0⟩, 0, 5⟩ rfl).1

/-- C5 counterexample: base point (color 5, no flags), segment endpoint
`cp1` with the FixedC flag and color 7.  The claim reads the FixedC
flag off the segment endpoint, predicting the endpoint's color is not
added (result 5); the code consults the base point's own flag and adds
it (result 12). -/
theorem c5_color_accumulation_cex :
    ((cf5.PartialRender p00 cp1).get? 0).map Point.color = some 12 ∧
      claimedPartialColor ⟨⟨0, 0⟩, 0, 5⟩ cp1 = 5 ∧ (12 : Int) ≠ 5 :=
  ⟨rfl, rfl, by decide⟩

/-- C5 (amended): each point produced by Partial gets the base point's
color plus the segment endpoint's color, reduced to the non-negative
remainder mod 1024, unless the *base point's* FixedC flag is set, in
which case the endpoint's color is not added and the base point's color
is kept as absolute. -/
theorem c5_color_accumulation (f : Fractal) (p0 p1 : Point) (i : Nat) (p : Point)
    (hp : (if p1.flags &&& FlipX ≠ 0 then f.inverse else f.base).get? i = some p)
    (hc0 : 0 ≤ p.color) (hc1 : p.color < 1024)
    (hd0 : 0 ≤ p1.color) (hd1 : p1.color < 1024) :
    ((f.PartialRender p0 p1).get? i).map Point.color
      = some (if p.flags &&& FixedC = 0 then (p.color + p1.color) % 1024 else p.color) := by
  unfold Fractal.PartialRender
  dsimp only
  rw [List.get?_map, hp]
  dsimp only [Option.map_some']
  congr 1
  by_cases hfy : p1.flags &&& FlipY ≠ 0 <;> by_cases hfc : p.flags &&& FixedC = 0 <;>
    simp only [hfy, hfc, if_pos, if_neg, if_true, if_false, ite_true, ite_false, ne_eq,
      not_true, not_false_iff]
  · rw [wrap16_eq_self _ (by omega) (by omega), modPlus_of_nonneg _ _ (by omega) (by omega)]
  · rw [modPlus_of_nonneg _ _ (by omega) (by omega), Int.emod_eq_of_lt (by omega) (by omega)]
  · rw [wrap16_eq_self _ (by omega) (by omega), modPlus_of_nonneg _ _ (by omega) (by omega)]
  · rw [modPlus_of_nonneg _ _ (by omega) (by omega), Int.emod_eq_of_lt (by omega) (by omega)]

/-- C5 witness: expanding the base of `cf5` (base point color 5, no
FixedC) along a segment endpoint of color 7 and no flags yields color
(5+7) mod 1024 = 12. -/
theorem c5_color_accumulation_witness :
    ((cf5.PartialRender p00 ⟨⟨1, 0⟩, 0, 7⟩).get? 0).map Point.color
      = some (if (0 : Nat) &&& FixedC = 0 then ((5 : Int) + 7) % 1024 else 5) :=
  c5_color_accumulation cf5 p00 ⟨⟨1, 0⟩, 0, 7⟩ 0 ⟨⟨0, 0⟩, 0, 5⟩ rfl (by decide) (by decide)
    (by decide) (by decide)

theorem selectPoint_base (f : Fractal) (i : Int) : (f.SelectPoint i).base = f.base := by
  unfold Fractal.SelectPoint
  split <;> rfl

/-- C6 counterexample: with selected color 5 and delta -10, the stored
color becomes -5 (Go's truncated `%` keeps the sign), not the
non-negative remainder 1019 the claim asserts, and it leaves [0,1024). -/
theorem c6_colorchange_negative_cex :
    ((cf6.ColorChange (-10)).base.get? 0).map Point.color = some (-5) ∧
      ((5 : Int) + -10) % 1024 = 1019 ∧ (-5 : Int) ≠ 1019 ∧ ¬(0 ≤ (-5 : Int)) :=
  ⟨rfl, by decide, by decide, by decide⟩

/-- C6 (amended): ColorChange adds `int16(delta)` with int16 wraparound
and stores the *truncated* remainder mod 1024, which can be negative;
whenever the wrapped sum `c + int16(delta)` is non-negative (and fits
int16) the stored color is the mathematically non-negative
`(c + int16(delta)) mod 1024` and lies in [0,1024) — in particular
1023 + 2 wraps to 1. -/
theorem c6_colorchange_mod (f : Fractal) (amt : Int) (p : Point)
    (hsel0 : 0 ≤ f.selectedPoint) (hsel1 : f.selectedPoint < (f.base.length : Int))
    (hp : f.base.get? f.selectedPoint.toNat = some p)
    (h0 : 0 ≤ p.color + wrap16 amt) (h1 : p.color + wrap16 amt ≤ 32767) :
    ((f.ColorChange amt).base.get? f.selectedPoint.toNat).map Point.color
        = some ((p.color + wrap16 amt) % 1024) ∧
      0 ≤ (p.color + wrap16 amt) % 1024 ∧ (p.color + wrap16 amt) % 1024 < 1024 := by
  have hlen : f.selectedPoint.toNat < f.base.length := by omega
  refine ⟨?_, Int.emod_nonneg _ (by omega), Int.emod_lt_of_pos _ (by omega)⟩
  unfold Fractal.ColorChange
  rw [if_neg (by omega)]
  dsimp only
  rw [hp]
  dsimp only
  rw [changed_base, selectPoint_base]
  dsimp only
  rw [List.get?_set_eq_of_lt _ hlen]
  unfold updColor
  dsimp only [Option.map_some']
  rw [wrap16_eq_self _ (by omega) (by omega), Int.tmod_eq_emod (by omega) (by omega)]

/-- C6 witness: 1023 + 2 wraps to 1. -/
theorem c6_colorchange_mod_witness :
    ((cf6w.ColorChange 2).base.get? 0).map Point.color = some 1 := by
  have h := c6_colorchange_mod cf6w 2 ⟨⟨0, 0⟩, 0, 1023⟩ (by decide) (by decide) rfl
    (by decide) (by decide)
  simpa using h.1

theorem addLoop_length (sel : Int) :
    ∀ (l : List Point) (i : Int) (prev : Point),
      (addLoop sel i prev l).length
        = l.length + (if i ≤ sel ∧ sel < i + (l.length : Int) then 1 else 0) := by
  intro l
  induction l with
  | nil =>
    intro i prev
    simp only [addLoop, List.length_nil, Nat.cast_zero]
    rw [if_neg (by omega)]
  | cons p ps ih =>
    intro i prev
    unfold addLoop
    by_cases h : i = sel
    · rw [if_pos h]
      simp only [List.length_cons, ih (i + 1) p]
      split_ifs <;> push_cast at * <;> omega
    · rw [if_neg h]
      simp only [List.length_cons, ih (i + 1) p]
      split_ifs <;> push_cast at * <;> omega

theorem delLoop_some_spec (sel cap : Int) :
    ∀ (l : List Point) (i j : Int) (nb : List Point),
      delLoop sel cap i j l = some nb →
      ((nb.length : Int) = l.length - (if i ≤ sel ∧ sel < i + (l.length : Int) then 1 else 0) ∧
        ((nb.length : Int) ≤ cap - j ∨ nb.length = 0)) := by
  intro l
  induction l with
  | nil =>
    intro i j nb h
    simp only [delLoop, Option.some_inj] at h
    subst h
    refine ⟨?_, Or.inr rfl⟩
    simp only [List.length_nil, Nat.cast_zero]
    rw [if_neg (by omega)]
    omega
  | cons p ps ih =>
    intro i j nb h
    unfold delLoop at h
    by_cases hi : i ≠ sel
    · rw [if_pos hi] at h
      by_cases hj : j < cap
      · rw [if_pos hj] at h
        cases hrec : delLoop sel cap (i + 1) (j + 1) ps with
        | none => rw [hrec] at h; cases h
        | some nb' =>
          rw [hrec] at h
          simp only [Option.map_some', Option.some_inj] at h
          obtain ⟨h1, h2⟩ := ih (i + 1) (j + 1) nb' hrec
          subst h
          constructor
          · simp only [List.length_cons]
            split_ifs at h1 ⊢ <;> push_cast at * <;> omega
          · left
            rcases h2 with h2 | h2 <;> simp only [List.length_cons] <;> push_cast at * <;> omega
      · rw [if_neg hj] at h; cases h
    · rw [if_neg hi] at h
      push_neg at hi
      obtain ⟨h1, h2⟩ := ih (i + 1) j nb h
      refine ⟨?_, h2⟩
      split_ifs at h1 ⊢ <;> simp only [List.length_cons] at * <;> push_cast at * <;> omega

theorem addPoint_cases (f : Fractal) :
    f.AddPoint = f ∨ (f.base.length < 6 ∧ (f.AddPoint).base.length = f.base.length + 1) := by
  unfold Fractal.AddPoint
  by_cases hg : f.base.length ≥ 6 ∨ f.selectedPoint < 0 ∨ f.selectedPoint ≥ (f.base.length : Int)
  · rw [if_pos hg]; left; rfl
  · rw [if_neg hg]
    push_neg at hg
    right
    refine ⟨by omega, ?_⟩
    rw [alloc_base]
    dsimp only
    rw [addLoop_length]
    rw [if_pos ⟨by omega, by omega⟩]

theorem delPoint_cases (f g : Fractal) (h : f.DelPoint = some g) :
    g = f ∨ (3 ≤ f.base.length ∧ g.base.length + 1 = f.base.length) := by
  unfold Fractal.DelPoint at h
  by_cases hg : f.base.length < 3 ∨ f.selectedPoint < 0 ∨ f.selectedPoint > (f.base.length : Int)
  · rw [if_pos hg] at h
    left
    exact (Option.some_inj.mp h).symm
  · rw [if_neg hg] at h
    push_neg at hg
    cases hrec : delLoop f.selectedPoint ((f.base.length : Int) - 1) 0 0 f.base with
    | none => rw [hrec] at h; cases h
    | some nb =>
      rw [hrec] at h
      obtain ⟨h1, h2⟩ := delLoop_some_spec _ _ f.base 0 0 nb hrec
      have hgnb : g = Fractal.Alloc { f with base := nb } := (Option.some_inj.mp h).symm
      right
      refine ⟨by omega, ?_⟩
      rw [hgnb, alloc_base]
      dsimp only
      by_cases hsel : f.selectedPoint < (f.base.length : Int)
      · rw [if_pos ⟨by omega, by omega⟩] at h1
        omega
      · exfalso
        rw [if_neg (by omega)] at h1
        omega

theorem runOps_length_invariant :
    ∀ (ops : List EditOp) (f : Fractal), 2 ≤ f.base.length → f.base.length ≤ 6 →
      ∀ f', runOps ops f = some f' → 2 ≤ f'.base.length ∧ f'.base.length ≤ 6 := by
  intro ops
  induction ops with
  | nil =>
    intro f h2 h6 f' h
    simp only [runOps, Option.some_inj] at h
    subst h
    exact ⟨h2, h6⟩
  | cons op ops ih =>
    intro f h2 h6 f' h
    unfold runOps at h
    cases op with
    | add =>
      dsimp only [applyOp] at h
      rcases addPoint_cases f with hc | hc
      · rw [hc] at h
        exact ih f h2 h6 f' h
      · exact ih f.AddPoint (by omega) (by omega) f' h
    | del =>
      dsimp only [applyOp] at h
      cases hd : f.DelPoint with
      | none => rw [hd] at h; cases h
      | some g =>
        rw [hd] at h
        rcases delPoint_cases f g hd with hc | hc
        · rw [hc] at h
          exact ih f h2 h6 f' h
        · exact ih g (by omega) (by omega) f' h

/-- C8: starting from a base of length in [2,6], any sequence of AddPoint
and DelPoint operations that runs to completion keeps the base length
in [2,6]; AddPoint is a no-op on a 6-point base, and DelPoint is a
silent no-op when the deletion would take the length below 2 (the
guard rejects bases shorter than 3). -/
theorem c8_base_length_bounds (ops : List EditOp) (f : Fractal)
    (h2 : 2 ≤ f.base.length) (h6 : f.base.length ≤ 6) :
    (∀ f', runOps ops f = some f' → 2 ≤ f'.base.length ∧ f'.base.length ≤ 6) ∧
      (f.base.length = 6 → f.AddPoint = f) ∧
      (f.base.length < 3 → f.DelPoint = some f) := by
  refine ⟨fun f' h => runOps_length_invariant ops f h2 h6 f' h, ?_, ?_⟩
  · intro hl
    unfold Fractal.AddPoint
    rw [if_pos (Or.inl (by omega))]
  · intro hl
    unfold Fractal.DelPoint
    rw [if_pos (Or.inl hl)]

/-- C8 witness: on the concrete 2-point base `cf8`, DelPoint is a silent
no-op. -/
theorem c8_base_length_bounds_witness : cf8.DelPoint = some cf8 :=
  (c8_base_length_bounds [] cf8 (by decide) (by decide)).2.2 (by decide)

theorem sqrt_mul_cos_arg (dx dy : ℝ) :
    Real.sqrt (dx * dx + dy * dy) * Real.cos (Complex.arg ⟨dx, dy⟩) = dx := by
  by_cases h : (⟨dx, dy⟩ : ℂ) = 0
  · have hx : dx = 0 := by simpa using congrArg Complex.re h
    have hy : dy = 0 := by simpa using congrArg Complex.im h
    subst hx
    subst hy
    simp
  · have habs : Complex.abs ⟨dx, dy⟩ = Real.sqrt (dx * dx + dy * dy) := by
      rw [Complex.abs_apply, Complex.normSq_mk]
    rw [Complex.cos_arg h]
    have hne : Complex.abs ⟨dx, dy⟩ ≠ 0 := Complex.abs.ne_zero h
    rw [← habs]
    show Complex.abs ⟨dx, dy⟩ * ((⟨dx, dy⟩ : ℂ).re / Complex.abs ⟨dx, dy⟩) = dx
    field_simp

theorem sqrt_mul_sin_arg (dx dy : ℝ) :
    Real.sqrt (dx * dx + dy * dy) * Real.sin (Complex.arg ⟨dx, dy⟩) = dy := by
  by_cases h : (⟨dx, dy⟩ : ℂ) = 0
  · have hx : dx = 0 := by simpa using congrArg Complex.re h
    have hy : dy = 0 := by simpa using congrArg Complex.im h
    subst hx
    subst hy
    simp
  · have habs : Complex.abs ⟨dx, dy⟩ = Real.sqrt (dx * dx + dy * dy) := by
      rw [Complex.abs_apply, Complex.normSq_mk]
    rw [Complex.sin_arg]
    have hne : Complex.abs ⟨dx, dy⟩ ≠ 0 := Complex.abs.ne_zero h
    rw [← habs]
    show Complex.abs ⟨dx, dy⟩ * ((⟨dx, dy⟩ : ℂ).im / Complex.abs ⟨dx, dy⟩) = dy
    field_simp

/-- C4: the transform built by NewAffineBetween carries (0,0) to p0 and
(1,0) to p1 — exactly, in the idealized real-number model of the
float64 arithmetic (so in particular within floating epsilon). -/
theorem c4_affine_between_maps_unit_segment (p0 p1 : Point) :
    (NewAffineBetween p0 p1).project ⟨0, 0⟩ = p0.vec ∧
      (NewAffineBetween p0 p1).project ⟨1, 0⟩ = p1.vec := by
  obtain ⟨⟨x0, y0⟩, fl0, c0⟩ := p0
  obtain ⟨⟨x1, y1⟩, fl1, c1⟩ := p1
  unfold NewAffineBetween Affine.project
  dsimp only
  have hc := sqrt_mul_cos_arg (x1 - x0) (y1 - y0)
  have hs := sqrt_mul_sin_arg (x1 - x0) (y1 - y0)
  constructor
  · simp only [Vec.mk.injEq]
    constructor <;> ring
  · simp only [Vec.mk.injEq]
    constructor <;> nlinarith [hc, hs]

/-- C10 counterexample: satMod maps the negative multiple-of-256 input
-256 to 256 (not into [0,255]), and rgb(0, 255, -256) = (256, 0, 0),
whose red channel exceeds 255 and would truncate when narrowed to 8
bits. -/
theorem c10_rgb_channel_range_cex :
    rgb 0 255 (-256) = (256, 0, 0) ∧ satMod (-256) 256 = 256 ∧ ¬((256 : Int) ≤ 255) :=
  ⟨rfl, rfl, by decide⟩

/-- C10 (amended): for every hue and every int16 saturation/value that is
not a negative multiple of 256, satMod lands in [0,255] and every rgb
channel lies in [0, satMod v 256] ⊆ [0,255]; in particular for
s, v ∈ [0,255] the channels lie in [0, v].  (When s or v is a negative
multiple of 256, satMod yields 256 and a channel can escape [0,255].) -/
theorem c10_rgb_channels_bounded (h s v : Int)
    (hs : ¬(s < 0 ∧ s.tmod 256 = 0)) (hv : ¬(v < 0 ∧ v.tmod 256 = 0)) :
    (0 ≤ (rgb h s v).1 ∧ (rgb h s v).1 ≤ satMod v 256) ∧
      (0 ≤ (rgb h s v).2.1 ∧ (rgb h s v).2.1 ≤ satMod v 256) ∧
      (0 ≤ (rgb h s v).2.2 ∧ (rgb h s v).2.2 ≤ satMod v 256) ∧
      0 ≤ satMod v 256 ∧ satMod v 256 ≤ 255 := by
  obtain ⟨hs0, hs1⟩ := satMod_bounds s hs
  obtain ⟨hv0, hv1⟩ := satMod_bounds v hv
  unfold rgb
  dsimp only
  obtain ⟨hh0, hh1⟩ := modPlus_bounds h 360 (by omega)
  rw [Int.tmod_eq_emod hh0 (by omega : (0 : Int) ≤ 60)]
  rw [Int.tdiv_eq_ediv (mul_nonneg hs0 hv0) (by omega : (0 : Int) ≤ 255)]
  have hp0 : 0 ≤ modPlus h 360 % 60 := Int.emod_nonneg _ (by omega)
  have hp1 : modPlus h 360 % 60 < 60 := Int.emod_lt_of_pos _ (by omega)
  have hc0 : 0 ≤ satMod s 256 * satMod v 256 / 255 :=
    Int.ediv_nonneg (mul_nonneg hs0 hv0) (by omega)
  have hc1 : satMod s 256 * satMod v 256 / 255 ≤ satMod v 256 := by
    calc satMod s 256 * satMod v 256 / 255 ≤ 255 * satMod v 256 / 255 :=
          Int.ediv_le_ediv (by omega) (mul_le_mul_of_nonneg_right hs1 hv0)
      _ = satMod v 256 := Int.mul_ediv_cancel_left _ (by omega)
  rw [Int.tdiv_eq_ediv (mul_nonneg hc0 hp0) (by omega : (0 : Int) ≤ 60)]
  have hx0 : 0 ≤ satMod s 256 * satMod v 256 / 255 * (modPlus h 360 % 60) / 60 :=
    Int.ediv_nonneg (mul_nonneg hc0 hp0) (by omega)
  have hx1 : satMod s 256 * satMod v 256 / 255 * (modPlus h 360 % 60) / 60
      ≤ satMod s 256 * satMod v 256 / 255 := by
    calc satMod s 256 * satMod v 256 / 255 * (modPlus h 360 % 60) / 60
        ≤ 60 * (satMod s 256 * satMod v 256 / 255) / 60 := by
          refine Int.ediv_le_ediv (by omega) ?_
          rw [mul_comm (60 : Int)]
          exact mul_le_mul_of_nonneg_left (by omega) hc0
      _ = satMod s 256 * satMod v 256 / 255 := Int.mul_ediv_cancel_left _ (by omega)
  split_ifs <;> dsimp only <;> refine ⟨⟨?_, ?_⟩, ⟨?_, ?_⟩, ⟨?_, ?_⟩, hv0, hv1⟩ <;> omega

/-- C10 witness: at h = 30, s = 100, v = 200 the red channel lies in
[0, satMod 200 256]. -/
theorem c10_rgb_channels_bounded_witness :
    0 ≤ (rgb 30 100 200).1 ∧ (rgb 30 100 200).1 ≤ satMod 200 256 :=
  (c10_rgb_channels_bounded 30 100 200 (by decide) (by decide)).1

theorem allocLoop_exit (L cap : Int) :
    ∀ (fuel : Nat) (i total size maxd : Int) (totals : List Int), maxd ≤ i →
      allocLoop L cap fuel i total size maxd totals = (maxd, total, totals) := by
  intro fuel
  cases fuel with
  | zero => intro i total size maxd totals h; rfl
  | succ n =>
    intro i total size maxd totals h
    unfold allocLoop
    rw [if_neg (by omega)]

theorem allocLoop_spec (L cap : Int) (hL : 1 ≤ L) :
    ∀ (fuel n : Nat) (totals : List Int) (r : Int × Int × List Int),
      fuel + n = 20 →
      (∑ j ∈ Finset.range n, L ^ j) ≤ cap →
      (∑ j ∈ Finset.range (n + 1), L ^ j) ≤ cap →
      allocLoop L cap fuel (n : Int) (∑ j ∈ Finset.range n, L ^ j) (L ^ n) 20 totals = r →
      (1 ≤ r.1 ∧ r.1 ≤ 20 ∧ (∑ j ∈ Finset.range r.1.toNat, L ^ j) ≤ cap ∧
        (r.1 < 20 → cap < ∑ j ∈ Finset.range (r.1.toNat + 1), L ^ j)) := by
  intro fuel
  induction fuel with
  | zero =>
    intro n totals r hfn h1 h2 hr
    have hn : n = 20 := by omega
    subst hn
    subst hr
    dsimp only [allocLoop]
    refine ⟨by omega, by omega, ?_, ?_⟩
    · simpa using h1
    · intro hlt
      exact absurd hlt (by omega)
  | succ fuel ih =>
    intro n totals r hfn h1 h2 hr
    unfold allocLoop at hr
    rw [if_pos (by push_cast; omega : ((n : Int) < 20))] at hr
    dsimp only at hr
    have hS1 : (∑ j ∈ Finset.range n, L ^ j) + L ^ n = ∑ j ∈ Finset.range (n + 1), L ^ j :=
      (Finset.sum_range_succ _ _).symm
    have hpow : L ^ n * L = L ^ (n + 1) := (pow_succ L n).symm
    have hS2 : (∑ j ∈ Finset.range (n + 1), L ^ j) + L ^ (n + 1)
        = ∑ j ∈ Finset.range (n + 2), L ^ j := (Finset.sum_range_succ _ _).symm
    by_cases htrig : (∑ j ∈ Finset.range n, L ^ j) + L ^ n + L ^ n * L > cap
    · rw [if_pos htrig] at hr
      rw [allocLoop_exit L cap fuel _ _ _ _ _ (le_refl _)] at hr
      subst hr
      dsimp only
      have htn : ((n : Int) + 1).toNat = n + 1 := by omega
      refine ⟨by omega, by omega, ?_, ?_⟩
      · rw [htn, ← hS1]
        omega
      · intro _
        rw [htn]
        rw [← hS2, ← hS1, ← hpow]
        omega
    · rw [if_neg htrig] at hr
      rw [hS1, hpow] at hr
      have hrc : allocLoop L cap fuel (((n + 1 : Nat) : Int))
          (∑ j ∈ Finset.range (n + 1), L ^ j) (L ^ (n + 1)) 20
          (totals ++ [∑ j ∈ Finset.range (n + 1), L ^ j]) = r := by
        rw [Nat.cast_add, Nat.cast_one]
        exact hr
      refine ih (n + 1) _ r (by omega) h2 ?_ hrc
      rw [← hS2, ← hS1, ← hpow]
      omega

/-- C1 counterexample: with a 2-point base and a large budget (MaxOOM 22)
the loop never hits the budget cap, so MaxDepth stops at the hard
cap 20, yet a cumulative count over 21 depths (2^21 - 1) also fits in
2^22: MaxDepth is not the largest integer satisfying the bound. -/
theorem c1_alloc_maxdepth_cex :
    (cf1x.Alloc).maxDepth = 20 ∧
      (∑ j ∈ Finset.range 21, ((cf1x.base.length : Int)) ^ j) ≤ 2 ^ cf1x.maxOOM ∧
      ¬((21 : Int) ≤ (cf1x.Alloc).maxDepth) := by
  have h1 : (cf1x.Alloc).maxDepth = 20 := by rw [alloc_maxDepth]; rfl
  have hlen : cf1x.base.length = 2 := rfl
  have hoom : cf1x.maxOOM = 22 := rfl
  refine ⟨h1, ?_, by rw [h1]; decide⟩
  rw [hlen, hoom]
  norm_num [Finset.sum_range_succ]

/-- C1 (amended): after Alloc, the cumulative point count over the
MaxDepth allocated depths fits the 2^MaxOOM budget, and MaxDepth is the
largest integer not exceeding the hard cap 20 that satisfies the bound
(Alloc starts from `f.MaxDepth = 20` and only caps downward, so for
budgets large enough that 20 depths fit, MaxDepth stays 20 even though
deeper allocations would also fit). -/
theorem c1_alloc_maxdepth_budget (f : Fractal)
    (hb2 : 2 ≤ f.base.length) (hb6 : f.base.length ≤ 6) :
    (∑ j ∈ Finset.range (f.Alloc).maxDepth.toNat, (f.base.length : Int) ^ j)
        ≤ 2 ^ f.maxOOM ∧
      1 ≤ (f.Alloc).maxDepth ∧ (f.Alloc).maxDepth ≤ 20 ∧
      (∀ k : Nat, k ≤ 20 → (∑ j ∈ Finset.range k, (f.base.length : Int) ^ j) ≤ 2 ^ f.maxOOM →
        (k : Int) ≤ (f.Alloc).maxDepth) := by
  have hL : (1 : Int) ≤ (f.base.length : Int) := by push_cast; omega
  have hcap : (1 : Int) ≤ 2 ^ f.maxOOM := by
    have := pow_pos (by omega : (0 : Int) < 2) f.maxOOM
    omega
  have hinit : allocLoop (f.base.length : Int) ((2 : Int) ^ f.maxOOM) 20 (((0 : Nat) : Int))
      (∑ j ∈ Finset.range 0, (f.base.length : Int) ^ j) ((f.base.length : Int) ^ 0) 20 []
      = allocLoop (f.base.length : Int) ((2 : Int) ^ f.maxOOM) 20 0 0 1 20 [] := by
    rw [Finset.sum_range_zero, pow_zero]
    norm_num
  have hS0 : (∑ j ∈ Finset.range 0, (f.base.length : Int) ^ j) ≤ 2 ^ f.maxOOM := by
    rw [Finset.sum_range_zero]
    omega
  have hS1 : (∑ j ∈ Finset.range (0 + 1), (f.base.length : Int) ^ j) ≤ 2 ^ f.maxOOM := by
    rw [Finset.sum_range_one, pow_zero]
    omega
  obtain ⟨hge, hle, hsum, hlast⟩ := allocLoop_spec (f.base.length : Int) ((2 : Int) ^ f.maxOOM)
    hL 20 0 []
    (allocLoop (f.base.length : Int) ((2 : Int) ^ f.maxOOM) 20 0 0 1 20 [])
    (by omega) hS0 hS1 hinit
  rw [alloc_maxDepth]
  refine ⟨hsum, hge, hle, ?_⟩
  intro k hk20 hkle
  set m := (allocLoop (f.base.length : Int) ((2 : Int) ^ f.maxOOM) 20 0 0 1 20 []).1 with hm
  by_cases hm20 : m < 20
  · by_contra hgt
    push_neg at hgt
    have hmono : (∑ j ∈ Finset.range (m.toNat + 1), (f.base.length : Int) ^ j)
        ≤ ∑ j ∈ Finset.range k, (f.base.length : Int) ^ j := by
      refine Finset.sum_le_sum_of_subset_of_nonneg (Finset.range_subset.mpr (by omega)) ?_
      intro j _ _
      positivity
    have := hlast hm20
    omega
  · omega

/-- C1 witness: with a 2-point base and MaxOOM 4, Alloc's MaxDepth stays
within the hard cap 20. -/
theorem c1_alloc_maxdepth_budget_witness : (cf1w.Alloc).maxDepth ≤ 20 :=
  (c1_alloc_maxdepth_budget cf1w (by decide) (by decide)).2.2.1
